import Mathlib

/-
  Verification development for the RepoSpotlight repository-sync and
  technology-tally engine.

  Shallow embedding of:
    src/database.py          (embedded SQLite backend, with retry loops)
    src/cloud_database.py    (Deta Base backend)
    src/firebase_database.py (Firestore backend)
    src/app_fixed.py         (url handling in get_repo_info and main)

  Modelling conventions, stated once here:
  - A SQL table / Deta base / Firestore collection is a Lean list of rows in
    insertion order (SQLite rowid scan order, which AUTOINCREMENT never
    reuses; backend enumeration order for the cloud stores).
  - ORDER BY count DESC and the Python stable list.sort(key=count,
    reverse=True) are both modelled as a stable insertion sort by count
    descending over that enumeration order.
  - json.dumps / json.loads of the custom metadata object is modelled as the
    identity on an opaque MetaObj value.
  - Machine and data failure points (failed connection, sqlite
    OperationalError with the "database is locked" text, any other
    exception raised before a write commits, and — in add_repository —
    the exception raised while reading custom_metadata.tech_stack after
    the record insert and the language tally increment) are driven by an
    oracle assigning an AttemptOutcome to each attempt index.
  - The inner calls from add_repository / delete_repository to the tally
    functions never raise in the source (they catch every exception
    internally), so inside those bodies they are modelled by their
    successful single-attempt behaviour.
  - datetime.now() is passed in explicitly as the `now` argument.
-/

namespace RepoSpotlight

/-- Opaque model of the custom_metadata JSON object. Only the tech_stack
list is ever inspected by the reconciler; everything else is `rest`. -/
structure MetaObj where
  tech_stack : List String
  rest : String
deriving DecidableEq

/-- The fetched repository data handed to add_repository / update_repository
(the fields of repo_data that the database layer reads). -/
structure RepoData where
  name : String
  owner_login : String
  description : String
  stars : Int
  forks : Int
  language : String
  updated_at : String
  custom_metadata : MetaObj
deriving DecidableEq

/-- One row of the SQLite technologies table. -/
structure TechRow where
  name : String
  count : Int
deriving DecidableEq

/-- One row of the SQLite repositories table. -/
structure RepoRow where
  id : Nat
  repo_url : String
  name : String
  owner : String
  description : String
  stars : Int
  forks : Int
  language : String
  last_updated : String
  last_synced : String
  metadata : MetaObj
deriving DecidableEq

/-- The SQLite database state: both tables in rowid order plus the next
AUTOINCREMENT id for repositories. -/
structure SqliteState where
  repositories : List RepoRow
  technologies : List TechRow
  nextId : Nat
deriving DecidableEq

/-- Outcome of one attempt of a database operation: the attempt body runs
normally (ok), get_db_connection returns None (connFail),
sqlite3.OperationalError with the "database is locked" text is raised
before any commit (locked), some other exception is raised before any
write takes effect (err), or — for add_repository only — an exception is
raised while reading custom_metadata.tech_stack after the record insert
has committed and the language tally increment has run (metaErr; for
instance when the repository metadata file holds a JSON value that is not
an object, so .get raises AttributeError at src/database.py line 142 and
src/cloud_database.py line 109). -/
inductive AttemptOutcome
  | ok
  | connFail
  | locked
  | err
  | metaErr
deriving DecidableEq

/-- Observable result of a (possibly retried) database operation: the
boolean result reported to the caller, the final database state, the number
of attempts performed, and the sleep durations (in seconds) between
attempts. -/
structure RetryResult (σ : Type) where
  success : Bool
  state : σ
  attempts : Nat
  sleeps : List ℚ
deriving DecidableEq

/-- The retry loop shared by add_repository, update_technology,
decrease_technology_count in src/database.py:
for attempt in range(max_retries): run the body; on "database is locked"
with attempt < max_retries - 1, sleep(delay), delay *= 1.5, continue; on
any other failure (or a locked error on the last attempt) return
immediately. The loop itself reacts only to the locked outcome; every
other outcome ends the loop after a single attempt with the effect the
per-operation body assigns to that outcome. `remaining` counts the
attempts still available including the current one. -/
def retryFrom {σ : Type} (body : AttemptOutcome → σ → Bool × σ)
    (outcomes : Nat → AttemptOutcome) : Nat → Nat → ℚ → σ → RetryResult σ
  | _, 0, _, s => ⟨false, s, 0, []⟩
  | attempt, remaining + 1, delay, s =>
    match outcomes attempt with
    | .locked =>
      if remaining = 0 then ⟨false, s, 1, []⟩
      else
        let r := retryFrom body outcomes (attempt + 1) remaining (delay * 3 / 2) s
        ⟨r.success, r.state, r.attempts + 1, delay :: r.sleeps⟩
    | oc => ⟨(body oc s).1, (body oc s).2, 1, []⟩

/-- Run a body under the source retry policy: max_retries = 5, initial
retry_delay = 1.0 second. -/
def run_with_retry {σ : Type} (body : AttemptOutcome → σ → Bool × σ)
    (outcomes : Nat → AttemptOutcome) (s : σ) : RetryResult σ :=
  retryFrom body outcomes 0 5 1 s

/-- update_technology, single successful attempt, on the technologies table
(src/database.py lines 303-325): if a row with this name exists, UPDATE
count = count + 1 WHERE name = ?; else INSERT (name, 1). -/
def update_technology_tech (name : String) (ts : List TechRow) : List TechRow :=
  if ts.any (fun t => t.name = name) then
    ts.map (fun t => if t.name = name then { t with count := t.count + 1 } else t)
  else
    ts ++ [⟨name, 1⟩]

/-- decrease_technology_count, single successful attempt, on the
technologies table (src/database.py lines 355-362):
UPDATE technologies SET count = count - 1 WHERE name = ?; then
DELETE FROM technologies WHERE count <= 0  (the delete is global: it is not
restricted to the decremented name). -/
def decrease_technology_count_tech (name : String) (ts : List TechRow) : List TechRow :=
  (ts.map (fun t => if t.name = name then { t with count := t.count - 1 } else t)).filter
    (fun t => 0 < t.count)

/-- update_technology attempt body lifted to the whole state. The Python
function returns None; the boolean records whether the attempt completed. -/
def update_technology_step (name : String) (s : SqliteState) : Bool × SqliteState :=
  (true, { s with technologies := update_technology_tech name s.technologies })

/-- One attempt of update_technology under a given outcome: the function
has no write that precedes a later failure point, so every failing outcome
leaves the state unchanged. -/
def update_technology_body (name : String) (oc : AttemptOutcome) (s : SqliteState) :
    Bool × SqliteState :=
  match oc with
  | .ok => update_technology_step name s
  | _ => (false, s)

/-- src/database.py update_technology: the attempt body under the retry
loop. -/
def update_technology (outcomes : Nat → AttemptOutcome) (name : String)
    (s : SqliteState) : RetryResult SqliteState :=
  run_with_retry (update_technology_body name) outcomes s

/-- decrease_technology_count attempt body lifted to the whole state. -/
def decrease_technology_count_step (name : String) (s : SqliteState) : Bool × SqliteState :=
  (true, { s with technologies := decrease_technology_count_tech name s.technologies })

/-- One attempt of decrease_technology_count under a given outcome; like
update_technology, every failing outcome leaves the state unchanged. -/
def decrease_technology_count_body (name : String) (oc : AttemptOutcome)
    (s : SqliteState) : Bool × SqliteState :=
  match oc with
  | .ok => decrease_technology_count_step name s
  | _ => (false, s)

/-- src/database.py decrease_technology_count: the attempt body under the
retry loop. -/
def decrease_technology_count (outcomes : Nat → AttemptOutcome) (name : String)
    (s : SqliteState) : RetryResult SqliteState :=
  run_with_retry (decrease_technology_count_body name) outcomes s

/-- The row INSERTed by add_repository (src/database.py lines 117-132). -/
def mk_repo_row (id : Nat) (repo_url : String) (d : RepoData) (now : String) : RepoRow :=
  ⟨id, repo_url, d.name, d.owner_login, d.description, d.stars, d.forks,
    d.language, d.updated_at, now, d.custom_metadata⟩

/-- add_repository, single successful attempt (src/database.py lines
100-147): SELECT id WHERE repo_url = ?; if a row exists return False with
no mutation; else INSERT the row and commit, then call update_technology
for the language (if truthy) and for each tech_stack entry, then return
True. The inner update_technology calls catch all their own exceptions, so
they are modelled at their successful behaviour. -/
def add_repository_attempt (repo_url : String) (d : RepoData) (now : String)
    (s : SqliteState) : Bool × SqliteState :=
  if s.repositories.any (fun r => r.repo_url = repo_url) then
    (false, s)
  else
    let s1 : SqliteState :=
      { s with repositories := s.repositories ++ [mk_repo_row s.nextId repo_url d now],
               nextId := s.nextId + 1 }
    let s2 := if d.language ≠ "" then (update_technology_step d.language s1).2 else s1
    let s3 := d.custom_metadata.tech_stack.foldl
      (fun st t => (update_technology_step t st).2) s2
    (true, s3)

/-- add_repository attempt in which reading custom_metadata.tech_stack
raises (src/database.py line 142, or line 143 on a non-iterable
tech_stack; reachable when the repository metadata file holds a JSON value
that is not an object): the duplicate check, the INSERT with its commit,
and the language tally increment have already run, the exception is then
caught at line 157 and False is returned with those effects kept. On a
duplicate url the function returns at line 111 before ever reading the
metadata, so nothing is mutated in that case. -/
def add_repository_attempt_metaErr (repo_url : String) (d : RepoData) (now : String)
    (s : SqliteState) : Bool × SqliteState :=
  if s.repositories.any (fun r => r.repo_url = repo_url) then
    (false, s)
  else
    let s1 : SqliteState :=
      { s with repositories := s.repositories ++ [mk_repo_row s.nextId repo_url d now],
               nextId := s.nextId + 1 }
    let s2 := if d.language ≠ "" then (update_technology_step d.language s1).2 else s1
    (false, s2)

/-- One attempt of add_repository under a given outcome: a failed
connection or an exception before the INSERT commits leaves the state
unchanged; the post-commit metadata exception keeps the insert and the
language increment. -/
def add_repository_body (repo_url : String) (d : RepoData) (now : String)
    (oc : AttemptOutcome) (s : SqliteState) : Bool × SqliteState :=
  match oc with
  | .ok => add_repository_attempt repo_url d now s
  | .metaErr => add_repository_attempt_metaErr repo_url d now s
  | _ => (false, s)

/-- src/database.py add_repository: the attempt body under the retry loop
(max 5 attempts, exponential backoff on "database is locked"). -/
def add_repository (outcomes : Nat → AttemptOutcome) (repo_url : String) (d : RepoData)
    (now : String) (s : SqliteState) : RetryResult SqliteState :=
  run_with_retry (add_repository_body repo_url d now) outcomes s

/-- The effect of the UPDATE statement of update_repository
(src/database.py lines 188-211) on one row: every column except id and
repo_url is overwritten on rows whose repo_url matches; other rows are
untouched. -/
def sql_overwrite_row (repo_url : String) (d : RepoData) (now : String) (r : RepoRow) :
    RepoRow :=
  if r.repo_url = repo_url then
    { r with name := d.name, owner := d.owner_login, description := d.description,
             stars := d.stars, forks := d.forks, language := d.language,
             last_updated := d.updated_at, last_synced := now,
             metadata := d.custom_metadata }
  else r

/-- update_repository, single attempt (src/database.py lines 174-215):
SELECT id WHERE repo_url = ?; if absent return False; else run the UPDATE
WHERE repo_url = ? and return True. Does not touch the technologies
table. -/
def update_repository_attempt (repo_url : String) (d : RepoData) (now : String)
    (s : SqliteState) : Bool × SqliteState :=
  if s.repositories.any (fun r => r.repo_url = repo_url) then
    (true, { s with repositories := s.repositories.map (sql_overwrite_row repo_url d now) })
  else
    (false, s)

/-- src/database.py update_repository: a single try/except block, NO retry
loop. Any exception (a locked database included) makes it return False on
the first occurrence; only outcome index 0 is ever consulted. -/
def update_repository (outcomes : Nat → AttemptOutcome) (repo_url : String) (d : RepoData)
    (now : String) (s : SqliteState) : RetryResult SqliteState :=
  match outcomes 0 with
  | .ok => ⟨(update_repository_attempt repo_url d now s).1,
            (update_repository_attempt repo_url d now s).2, 1, []⟩
  | _ => ⟨false, s, 1, []⟩

/-- delete_repository, single attempt (src/database.py lines 271-290):
SELECT language WHERE repo_url = ? (first row); if absent return False;
if the language is truthy call decrease_technology_count(language); then
DELETE FROM repositories WHERE repo_url = ?; return True. The inner
decrease_technology_count catches all its own exceptions, so it is
modelled at its successful behaviour. -/
def delete_repository_attempt (repo_url : String) (s : SqliteState) : Bool × SqliteState :=
  match s.repositories.find? (fun r => r.repo_url = repo_url) with
  | none => (false, s)
  | some repo =>
    let s1 := if repo.language ≠ "" then
        { s with technologies := decrease_technology_count_tech repo.language s.technologies }
      else s
    (true, { s1 with repositories := s1.repositories.filter (fun r => ¬ (r.repo_url = repo_url)) })

/-- src/database.py delete_repository: a single try/except block, NO retry
loop; only outcome index 0 is ever consulted. -/
def delete_repository (outcomes : Nat → AttemptOutcome) (repo_url : String)
    (s : SqliteState) : RetryResult SqliteState :=
  match outcomes 0 with
  | .ok => ⟨(delete_repository_attempt repo_url s).1,
            (delete_repository_attempt repo_url s).2, 1, []⟩
  | _ => ⟨false, s, 1, []⟩

/-- Stable descending insertion by count for SQLite rows: a row is placed
after every earlier row with a strictly greater count and before the first
row with a smaller-or-equal count, so equal counts keep their original
relative order. -/
def insertTechDesc (x : TechRow) : List TechRow → List TechRow
  | [] => [x]
  | y :: ys => if y.count ≤ x.count then x :: y :: ys else y :: insertTechDesc x ys

/-- Stable sort of the technologies table by count descending, the model of
SELECT name, count FROM technologies ORDER BY count DESC over the rowid
scan (ties come out in rowid, i.e. insertion, order). -/
def sortTechDesc : List TechRow → List TechRow
  | [] => []
  | x :: xs => insertTechDesc x (sortTechDesc xs)

/-- src/database.py get_technology_stats, successful read (line 394):
SELECT name, count FROM technologies ORDER BY count DESC. (Its retry loop
is read-only and not modelled.) -/
def get_technology_stats (s : SqliteState) : List (String × Int) :=
  (sortTechDesc s.technologies).map (fun t => (t.name, t.count))

/-- One item of the Deta "technologies" base (src/cloud_database.py). Deta
assigns each item a unique key; keys are modelled by a fresh counter. -/
structure DetaTech where
  key : Nat
  name : String
  count : Int
deriving DecidableEq

/-- One item of the Deta "repositories" base. -/
structure DetaRepo where
  key : Nat
  repo_url : String
  name : String
  owner : String
  description : String
  stars : Int
  forks : Int
  language : String
  last_updated : String
  last_synced : String
  metadata : MetaObj
deriving DecidableEq

/-- The Deta backend state: both bases in enumeration order plus fresh-key
counters (Deta keys are unique per base). -/
structure DetaState where
  repos : List DetaRepo
  techs : List DetaTech
  nextRepoKey : Nat
  nextTechKey : Nat
deriving DecidableEq

/-- src/cloud_database.py update_technology (lines 244-261), successful
path: fetch the items whose name field matches; if one exists, update its
count to count+1 through its key; else put a new item with count 1 and a
fresh key. Exceptions are caught and leave the state unchanged; the claims only
use the successful path. -/
def cloud_update_technology (name : String) (s : DetaState) : DetaState :=
  match s.techs.find? (fun t => t.name = name) with
  | some t0 =>
    { s with techs := s.techs.map (fun t =>
        if t.key = t0.key then { t with count := t.count + 1 } else t) }
  | none =>
    { s with techs := s.techs ++ [⟨s.nextTechKey, name, 1⟩],
             nextTechKey := s.nextTechKey + 1 }

/-- src/cloud_database.py decrease_technology_count (lines 263-281),
successful path: fetch the items whose name field matches; if absent do
nothing; if the first match has count <= 1 delete it by key; else update
its count to count-1 through its key. -/
def cloud_decrease_technology_count (name : String) (s : DetaState) : DetaState :=
  match s.techs.find? (fun t => t.name = name) with
  | some t0 =>
    if t0.count ≤ 1 then
      { s with techs := s.techs.filter (fun t => ¬ (t.key = t0.key)) }
    else
      { s with techs := s.techs.map (fun t =>
          if t.key = t0.key then { t with count := t.count - 1 } else t) }
  | none => s

/-- The item put into the Deta repositories base by add_repository
(src/cloud_database.py lines 88-102). -/
def mk_deta_repo (key : Nat) (repo_url : String) (d : RepoData) (now : String) : DetaRepo :=
  ⟨key, repo_url, d.name, d.owner_login, d.description, d.stars, d.forks, d.language,
    d.updated_at, now, d.custom_metadata⟩

/-- src/cloud_database.py add_repository (lines 65-117): one try/except
block (no retry). On the successful path: fetch the items whose repo_url
matches; if any exists return False with no mutation; else put the new item,
then run the same tally updates as the SQLite backend, then return True.
Any exception before the put (modelled by the connFail, locked and err
outcomes) returns False with no mutation; the inner update_technology
calls catch their own exceptions and never raise. The metaErr outcome is
the exception raised at line 109 while reading custom_metadata.tech_stack
(for instance on a non-object metadata value): it fires after the put and
the language tally increment, is caught at line 115, and returns False
with those effects kept; on a duplicate url the function returns at line
82 before reading the metadata. -/
def cloud_add_repository (outcome : AttemptOutcome) (repo_url : String) (d : RepoData)
    (now : String) (s : DetaState) : Bool × DetaState :=
  match outcome with
  | .ok =>
    if s.repos.any (fun r => r.repo_url = repo_url) then
      (false, s)
    else
      let s1 : DetaState :=
        { s with repos := s.repos ++ [mk_deta_repo s.nextRepoKey repo_url d now],
                 nextRepoKey := s.nextRepoKey + 1 }
      let s2 := if d.language ≠ "" then cloud_update_technology d.language s1 else s1
      let s3 := d.custom_metadata.tech_stack.foldl
        (fun st t => cloud_update_technology t st) s2
      (true, s3)
  | .metaErr =>
    if s.repos.any (fun r => r.repo_url = repo_url) then
      (false, s)
    else
      let s1 : DetaState :=
        { s with repos := s.repos ++ [mk_deta_repo s.nextRepoKey repo_url d now],
                 nextRepoKey := s.nextRepoKey + 1 }
      let s2 := if d.language ≠ "" then cloud_update_technology d.language s1 else s1
      (false, s2)
  | _ => (false, s)

/-- Stable descending insertion by count for (name, count) pairs. -/
def insertStatDesc (x : String × Int) : List (String × Int) → List (String × Int)
  | [] => [x]
  | y :: ys => if y.2 ≤ x.2 then x :: y :: ys else y :: insertStatDesc x ys

/-- Stable sort of (name, count) pairs by count descending: the model of
the Python stable list.sort(key=count, reverse=True) used by the two cloud
backends (reverse sorting in Python is also stable). -/
def sortStatsDesc : List (String × Int) → List (String × Int)
  | [] => []
  | x :: xs => insertStatDesc x (sortStatsDesc xs)

/-- src/cloud_database.py get_technology_stats (lines 283-305): fetch all
items, project to (name, count), then stably sort by count descending. -/
def cloud_get_technology_stats (s : DetaState) : List (String × Int) :=
  sortStatsDesc (s.techs.map (fun t => (t.name, t.count)))

/-- One document of the Firestore technologies collection
(src/firebase_database.py). Firestore document ids are unique; they are
modelled by a fresh counter. In the model every document carries its name
and count fields, so the .get defaults of the source never fire. -/
structure FireTech where
  docId : Nat
  name : String
  count : Int
deriving DecidableEq

/-- One document of the Firestore repositories collection. The stored "id"
field (idField) is set to the document id on add and preserved on update. -/
structure FireRepo where
  docId : Nat
  repo_url : String
  name : String
  owner : String
  description : String
  stars : Int
  forks : Int
  language : String
  last_updated : String
  last_synced : String
  metadata : MetaObj
  idField : Nat
deriving DecidableEq

/-- The Firestore backend state: both collections in enumeration order plus
a fresh-id counter (uuid4 and Firestore auto-ids modelled as fresh Nats). -/
structure FireState where
  repos : List FireRepo
  techs : List FireTech
  nextId : Nat
deriving DecidableEq

/-- src/firebase_database.py update_technology (lines 303-327), successful
path: query where name == name limit 1; if a document exists, update
count := count + 1 on that document; else add {name, count: 1} with a
fresh auto-id. -/
def fire_update_technology (name : String) (s : FireState) : FireState :=
  match s.techs.find? (fun t => t.name = name) with
  | some t0 =>
    { s with techs := s.techs.map (fun t =>
        if t.docId = t0.docId then { t with count := t.count + 1 } else t) }
  | none =>
    { s with techs := s.techs ++ [⟨s.nextId, name, 1⟩], nextId := s.nextId + 1 }

/-- src/firebase_database.py decrease_technology_count (lines 329-353),
successful path: query where name == name limit 1; if absent do nothing;
if the match has count <= 1 delete the document; else update
count := count - 1. -/
def fire_decrease_technology_count (name : String) (s : FireState) : FireState :=
  match s.techs.find? (fun t => t.name = name) with
  | some t0 =>
    if t0.count ≤ 1 then
      { s with techs := s.techs.filter (fun t => ¬ (t.docId = t0.docId)) }
    else
      { s with techs := s.techs.map (fun t =>
          if t.docId = t0.docId then { t with count := t.count - 1 } else t) }
  | none => s

/-- src/firebase_database.py update_repository (lines 161-210), successful
path: query where repo_url == repo_url limit 1; if absent return False;
else overwrite every field of that document, with repo_url set to the
queried url, last_synced restamped, and the stored "id" field preserved
from the existing document. No tally update. A failure outcome returns
False with no mutation. -/
def fire_update_repository (outcome : AttemptOutcome) (repo_url : String) (d : RepoData)
    (now : String) (s : FireState) : Bool × FireState :=
  match outcome with
  | .ok =>
    match s.repos.find? (fun r => r.repo_url = repo_url) with
    | none => (false, s)
    | some d0 =>
      (true, { s with repos := s.repos.map (fun r =>
        if r.docId = d0.docId then
          ⟨r.docId, repo_url, d.name, d.owner_login, d.description, d.stars, d.forks,
            d.language, d.updated_at, now, d.custom_metadata, d0.idField⟩
        else r) })
  | _ => (false, s)

/-- src/firebase_database.py get_technology_stats (lines 355-378): stream
all documents, project to (name, count), then stably sort by count
descending (Python stable sort with reverse=True). -/
def fire_get_technology_stats (s : FireState) : List (String × Int) :=
  sortStatsDesc (s.techs.map (fun t => (t.name, t.count)))

/-- The url normalization performed inside get_repo_info
(src/app_fixed.py lines 42-46): repo_url.strip().rstrip("/"), then drop a
trailing ".git". Note that nothing here removes a query string. -/
def get_repo_info_normalize (u : String) : String :=
  let l1 := ((u.toList.dropWhile (fun c => c.isWhitespace)).reverse.dropWhile
    (fun c => c.isWhitespace)).reverse
  let l2 := (l1.reverse.dropWhile (fun c => c = '/')).reverse
  let l3 := if l2.reverse.take 4 = ['t', 'i', 'g', '.'] then (l2.reverse.drop 4).reverse else l2
  String.mk l3

/-- The add-repository flow of src/app_fixed.py main (lines 521-531):
repo_data := get_repo_info(new_repo_url) fetches data (normalizing only a
local copy of the url for parsing), and then db.add_repository is called
with new_repo_url itself, verbatim. -/
def main_add_repository (outcomes : Nat → AttemptOutcome) (new_repo_url : String)
    (d : RepoData) (now : String) (s : SqliteState) : RetryResult SqliteState :=
  add_repository outcomes new_repo_url d now s

/-- A tally operation: Tally increment or Tally decrement of one name. -/
inductive TallyOp
  | inc (name : String)
  | dec (name : String)
deriving DecidableEq

/-- One tally operation on the SQLite technologies table (successful
attempt semantics). -/
def apply_sql_tally (ts : List TechRow) : TallyOp → List TechRow
  | .inc n => update_technology_tech n ts
  | .dec n => decrease_technology_count_tech n ts

/-- One tally operation on the Deta backend. -/
def apply_cloud_tally (s : DetaState) : TallyOp → DetaState
  | .inc n => cloud_update_technology n s
  | .dec n => cloud_decrease_technology_count n s

/-- One tally operation on the Firestore backend. -/
def apply_fire_tally (s : FireState) : TallyOp → FireState
  | .inc n => fire_update_technology n s
  | .dec n => fire_decrease_technology_count n s

/-- Well-formedness of the Deta technologies base: every count is at least
1, every key is below the fresh counter, and keys are pairwise distinct. -/
def cloud_tally_inv (s : DetaState) : Prop :=
  (∀ t ∈ s.techs, 1 ≤ t.count ∧ t.key < s.nextTechKey) ∧ (s.techs.map (fun t => t.key)).Nodup

/-- Well-formedness of the Firestore technologies collection: every count
is at least 1, every document id is below the fresh counter, and document
ids are pairwise distinct. -/
def fire_tally_inv (s : FireState) : Prop :=
  (∀ t ∈ s.techs, 1 ≤ t.count ∧ t.docId < s.nextId) ∧ (s.techs.map (fun t => t.docId)).Nodup

/-- Oracle: every attempt succeeds. -/
def allOk : Nat → AttemptOutcome := fun _ => .ok

/-- Oracle: every attempt raises "database is locked" (persistent
contention). -/
def allLocked : Nat → AttemptOutcome := fun _ => .locked

/-- Oracle: the first attempt raises "database is locked", every later
attempt would succeed. -/
def lockedThenOk : Nat → AttemptOutcome := fun n => if n = 0 then .locked else .ok

/-- Oracle: the first attempt raises a non-contention error. -/
def firstErr : Nat → AttemptOutcome := fun _ => .err

/-- Oracle: every attempt raises the post-commit metadata exception (the
repository metadata file holds a non-object JSON value). Only the first
attempt is ever consulted, because that exception is not retried. -/
def allMetaErr : Nat → AttemptOutcome := fun _ => .metaErr

/-- The repository data used for concrete witnesses: language Go, tech
stack [Go, Docker] (the scenario of spec section 8). -/
def goData : RepoData :=
  ⟨"A", "o", "demo", 1, 0, "Go", "2024-01-01", ⟨["Go", "Docker"], ""⟩⟩

/-- Empty SQLite state. -/
def emptySql : SqliteState := ⟨[], [], 1⟩

/-- A one-row SQLite state used for concrete witnesses. -/
def sampleRepoRow : RepoRow := ⟨1, "u", "n", "o", "", 0, 0, "Go", "lu", "ls", ⟨[], ""⟩⟩

/-- SQLite state holding exactly sampleRepoRow. -/
def sampleSql : SqliteState := ⟨[sampleRepoRow], [], 2⟩

/-- A one-document Firestore repositories state used for concrete
witnesses. -/
def sampleFireRepo : FireRepo := ⟨5, "u", "n", "o", "", 0, 0, "Go", "lu", "ls", ⟨[], ""⟩, 5⟩

/-- Firestore state holding exactly sampleFireRepo. -/
def sampleFire : FireState := ⟨[sampleFireRepo], [], 6⟩

/-- SQLite state with a tied tally (Go and Python both at 2, Docker at 1)
used to witness the snapshot ordering. -/
def tieSql : SqliteState := ⟨[], [⟨"Go", 2⟩, ⟨"Python", 2⟩, ⟨"Docker", 1⟩], 1⟩

/-- Deta state whose technologies base carries the same (name, count)
sequence as tieSql. -/
def tieDeta : DetaState := ⟨[], [⟨0, "Go", 2⟩, ⟨1, "Python", 2⟩, ⟨2, "Docker", 1⟩], 0, 3⟩

/-- Firestore state whose technologies collection carries the same
(name, count) sequence as tieSql. -/
def tieFire : FireState := ⟨[], [⟨0, "Go", 2⟩, ⟨1, "Python", 2⟩, ⟨2, "Docker", 1⟩], 3⟩

/-- Empty Deta state. -/
def emptyDeta : DetaState := ⟨[], [], 0, 0⟩

/-- Empty Firestore state. -/
def emptyFire : FireState := ⟨[], [], 0⟩

/- ------------------------------------------------------------------ -/
/- Theorems.                                                           -/
/- ------------------------------------------------------------------ -/

theorem run_with_retry_allOk {σ : Type} (body : AttemptOutcome → σ → Bool × σ) (s : σ) :
    run_with_retry body allOk s = ⟨(body .ok s).1, (body .ok s).2, 1, []⟩ := rfl

theorem run_with_retry_lockedThenOk {σ : Type} (body : AttemptOutcome → σ → Bool × σ)
    (s : σ) :
    run_with_retry body lockedThenOk s = ⟨(body .ok s).1, (body .ok s).2, 2, [1]⟩ := rfl

theorem run_with_retry_allLocked {σ : Type} (body : AttemptOutcome → σ → Bool × σ)
    (s : σ) :
    run_with_retry body allLocked s = ⟨false, s, 5, [1, 3 / 2, 9 / 4, 27 / 8]⟩ := by
  show retryFrom body allLocked 0 5 1 s = _
  norm_num [retryFrom, allLocked]

theorem run_with_retry_firstErr {σ : Type} (body : AttemptOutcome → σ → Bool × σ)
    (s : σ) :
    run_with_retry body firstErr s = ⟨(body .err s).1, (body .err s).2, 1, []⟩ := rfl

theorem update_technology_step_repositories (n : String) (s : SqliteState) :
    ((update_technology_step n s).2).repositories = s.repositories := rfl

theorem update_technology_step_nextId (n : String) (s : SqliteState) :
    ((update_technology_step n s).2).nextId = s.nextId := rfl

theorem tally_foldl_repositories (ts : List String) (s : SqliteState) :
    (ts.foldl (fun st t => (update_technology_step t st).2) s).repositories =
      s.repositories := by
  induction ts generalizing s with
  | nil => rfl
  | cons a l ih => simpa [List.foldl] using ih ((update_technology_step a s).2)

/-- Claim C6: for the write operations that do retry on contention
(add_repository, update_technology, decrease_technology_count), persistent
contention causes exactly 5 attempts with 4 sleeps of 1.0, 1.5, 2.25 and
3.375 seconds, after which a failure is reported with the state unchanged;
a non-contention failure fails on the first attempt with no retry and no
sleeps. -/
theorem c6_backoff_bound (U name : String) (d : RepoData) (now : String) (s : SqliteState) :
    add_repository allLocked U d now s = ⟨false, s, 5, [1, 3 / 2, 9 / 4, 27 / 8]⟩ ∧
    update_technology allLocked name s = ⟨false, s, 5, [1, 3 / 2, 9 / 4, 27 / 8]⟩ ∧
    decrease_technology_count allLocked name s = ⟨false, s, 5, [1, 3 / 2, 9 / 4, 27 / 8]⟩ ∧
    add_repository firstErr U d now s = ⟨false, s, 1, []⟩ ∧
    update_technology firstErr name s = ⟨false, s, 1, []⟩ ∧
    decrease_technology_count firstErr name s = ⟨false, s, 1, []⟩ :=
  ⟨run_with_retry_allLocked _ s, run_with_retry_allLocked _ s, run_with_retry_allLocked _ s,
    rfl, rfl, rfl⟩

/-- Every technology row surviving decrease_technology_count has count at
least 1 (the global DELETE removes every non-positive row). -/
theorem decrease_tech_all_pos (name : String) (ts : List TechRow) :
    ∀ t ∈ decrease_technology_count_tech name ts, 1 ≤ t.count := by
  intro t ht
  have := (List.mem_filter.mp ht).2
  have h0 : 0 < t.count := by simpa using this
  omega

/-- Claim C10: in the SQLite backend, decrease_technology_count, after
decrementing the named entry, deletes every technologies row with
count <= 0 regardless of name: after any single decrement every surviving
row has count >= 1, and rows of other names survive exactly when their
(unchanged) count is positive, in their original order. -/
theorem c10_decrease_purges_nonpositive (name : String) (ts : List TechRow) :
    (∀ t ∈ decrease_technology_count_tech name ts, 1 ≤ t.count) ∧
    (decrease_technology_count_tech name ts).filter (fun t => ¬ (t.name = name)) =
      ts.filter (fun t => ¬ (t.name = name) ∧ 0 < t.count) := by
  refine ⟨decrease_tech_all_pos name ts, ?_⟩
  induction ts with
  | nil => rfl
  | cons a l ih =>
    by_cases hn : a.name = name
    · by_cases hc : 0 < a.count - 1
      · simp [decrease_technology_count_tech, hn, hc, List.filter] at ih ⊢
        exact ih
      · simp [decrease_technology_count_tech, hn, hc, List.filter] at ih ⊢
        exact ih
    · by_cases hc : 0 < a.count
      · simp [decrease_technology_count_tech, hn, hc, List.filter] at ih ⊢
        exact ih
      · simp [decrease_technology_count_tech, hn, hc, List.filter] at ih ⊢
        exact ih

/-- Witness for C10 at a concrete input: decrementing Go purges a stale
zero-count row of a different name. -/
theorem c10_witness :
    (∀ t ∈ decrease_technology_count_tech "Go" [⟨"Go", 2⟩, ⟨"Old", 0⟩], 1 ≤ t.count) ∧
    (decrease_technology_count_tech "Go" [⟨"Go", 2⟩, ⟨"Old", 0⟩]).filter
      (fun t => ¬ (t.name = "Go")) =
      [(⟨"Go", 2⟩ : TechRow), ⟨"Old", 0⟩].filter
        (fun t => ¬ (t.name = "Go") ∧ 0 < t.count) :=
  c10_decrease_purges_nonpositive "Go" [⟨"Go", 2⟩, ⟨"Old", 0⟩]

theorem tally_foldl_nextId (ts : List String) (s : SqliteState) :
    (ts.foldl (fun st t => (update_technology_step t st).2) s).nextId = s.nextId := by
  induction ts generalizing s with
  | nil => rfl
  | cons a l ih => simpa [List.foldl] using ih ((update_technology_step a s).2)

theorem add_repository_attempt_spec (U : String) (d : RepoData) (now : String)
    (s : SqliteState)
    (hU : s.repositories.any (fun r => r.repo_url = U) = false) :
    (add_repository_attempt U d now s).1 = true ∧
    (add_repository_attempt U d now s).2.repositories =
      s.repositories ++ [mk_repo_row s.nextId U d now] ∧
    (add_repository_attempt U d now s).2.nextId = s.nextId + 1 := by
  have hc : ¬ (s.repositories.any (fun r => r.repo_url = U) = true) := by simp [hU]
  unfold add_repository_attempt
  rw [if_neg hc]
  refine ⟨rfl, ?_, ?_⟩
  · simp only [tally_foldl_repositories]
    by_cases hl : d.language ≠ ""
    · rw [if_pos hl, update_technology_step_repositories]
    · rw [if_neg hl]
  · simp only [tally_foldl_nextId]
    by_cases hl : d.language ≠ ""
    · rw [if_pos hl, update_technology_step_nextId]
    · rw [if_neg hl]

theorem add_repository_attempt_dup (U : String) (d : RepoData) (now : String)
    (s : SqliteState)
    (hU : s.repositories.any (fun r => r.repo_url = U) = true) :
    add_repository_attempt U d now s = (false, s) := by
  unfold add_repository_attempt
  rw [if_pos hU]

/-- Claim C3 counterexample: adding repository A (language Go, tech stack
[Go, Docker]) and then deleting it leaves the snapshot at
Go: 1, Docker: 1 — not at exactly Docker: 1 as the claim states, because
only the primary-language attribution of Go is decremented while the
tech-stack attribution of Go remains. -/
theorem c3_counterexample :
    get_technology_stats (delete_repository allOk "u"
        (add_repository allOk "u" goData "t1" emptySql).state).state =
      [("Go", 1), ("Docker", 1)] ∧
    ¬ get_technology_stats (delete_repository allOk "u"
        (add_repository allOk "u" goData "t1" emptySql).state).state = [("Docker", 1)] := by
  decide

/-- Claim C3, amended: adding repository A with language Go and tech stack
[Go, Docker] makes the snapshot show Go: 2, Docker: 1; deleting A then
makes the snapshot show Go: 1, Docker: 1 — only the primary-language
attribution is decremented on delete, the tech-stack attributions
(including the Go one) remain. -/
theorem c3_amended_tally_scenario :
    get_technology_stats (add_repository allOk "u" goData "t1" emptySql).state =
      [("Go", 2), ("Docker", 1)] ∧
    get_technology_stats (delete_repository allOk "u"
        (add_repository allOk "u" goData "t1" emptySql).state).state =
      [("Go", 1), ("Docker", 1)] := by
  decide

/-- Claim C4 counterexample: the add flow of main stores the user-supplied
url verbatim; with input "https://github.com/u/r/" the stored unique key
ends in a trailing slash, even though the normalization inside
get_repo_info would have produced "https://github.com/u/r". -/
theorem c4_counterexample :
    ((main_add_repository allOk "https://github.com/u/r/" goData "t"
        emptySql).state.repositories.map (fun r => r.repo_url)) =
      ["https://github.com/u/r/"] ∧
    "https://github.com/u/r/".toList.getLast? = some '/' ∧
    get_repo_info_normalize "https://github.com/u/r/" = "https://github.com/u/r" := by
  decide

/-- Claim C4, amended: get_repo_info normalizes only a local copy of the
url (stripping whitespace, trailing slashes and a ".git" suffix — never a
query string) in order to parse owner and repository name; add_repository
is called with the original url, so the stored repo_url is the callers
input verbatim and may carry a trailing slash, a ".git" suffix or a query
string. -/
theorem c4_amended_raw_url_stored (url : String) (d : RepoData) (now : String) :
    ((main_add_repository allOk url d now emptySql).state.repositories.map
        (fun r => r.repo_url)) = [url] ∧
    get_repo_info_normalize " https://github.com/u/r/ " = "https://github.com/u/r" ∧
    get_repo_info_normalize "https://github.com/u/r.git" = "https://github.com/u/r" ∧
    get_repo_info_normalize "https://github.com/u/r?tab=readme" =
      "https://github.com/u/r?tab=readme" := by
  refine ⟨?_, by decide, by decide, by decide⟩
  show ((add_repository allOk url d now emptySql).state.repositories.map
      (fun r => r.repo_url)) = [url]
  have hst : (add_repository allOk url d now emptySql).state =
      (add_repository_attempt url d now emptySql).2 := rfl
  rw [hst, (add_repository_attempt_spec url d now emptySql rfl).2.1]
  rfl

/-- Claim C5 counterexample: with an oracle whose first attempt raises
"database is locked" and whose second attempt would succeed,
update_repository and delete_repository fail after exactly one attempt —
they have no retry loop — while add_repository retries and succeeds on the
second attempt. -/
theorem c5_counterexample :
    (update_repository lockedThenOk "u" goData "t" emptySql).attempts = 1 ∧
    (update_repository lockedThenOk "u" goData "t" emptySql).success = false ∧
    (delete_repository lockedThenOk "u" emptySql).attempts = 1 ∧
    (delete_repository lockedThenOk "u" emptySql).success = false ∧
    (add_repository lockedThenOk "u" goData "t" emptySql).attempts = 2 ∧
    (add_repository lockedThenOk "u" goData "t" emptySql).success = true ∧
    lockedThenOk 1 = .ok := by
  decide

/-- Claim C5, amended: of the four write operations against the SQLite
backend, insert (add_repository) and the tally writes (update_technology,
decrease_technology_count) retry on a "database is locked" failure, while
replace (update_repository) and deleteByUrl (delete_repository) do not:
any first-attempt failure, contention included, makes them return a
failure immediately after exactly one attempt. -/
theorem c5_amended_retry_coverage (U name : String) (d : RepoData) (now : String)
    (s : SqliteState) :
    add_repository lockedThenOk U d now s =
      ⟨(add_repository_attempt U d now s).1, (add_repository_attempt U d now s).2, 2, [1]⟩ ∧
    update_technology lockedThenOk name s =
      ⟨true, (update_technology_step name s).2, 2, [1]⟩ ∧
    decrease_technology_count lockedThenOk name s =
      ⟨true, (decrease_technology_count_step name s).2, 2, [1]⟩ ∧
    update_repository lockedThenOk U d now s = ⟨false, s, 1, []⟩ ∧
    delete_repository lockedThenOk U s = ⟨false, s, 1, []⟩ :=
  ⟨run_with_retry_lockedThenOk _ s, run_with_retry_lockedThenOk _ s,
    run_with_retry_lockedThenOk _ s, rfl, rfl⟩

theorem cloud_add_repository_dup (U : String) (d : RepoData) (now : String) (s : DetaState)
    (hU : s.repos.any (fun r => r.repo_url = U) = true) :
    cloud_add_repository .ok U d now s = (false, s) := by
  unfold cloud_add_repository
  rw [if_pos hU]

theorem retry_false_preserves {σ : Type} (body : AttemptOutcome → σ → Bool × σ)
    (hbody : ∀ (oc : AttemptOutcome) (s : σ), ¬ oc = AttemptOutcome.metaErr →
      (body oc s).1 = false → (body oc s).2 = s)
    (outcomes : Nat → AttemptOutcome)
    (hm : ∀ n, ¬ outcomes n = AttemptOutcome.metaErr) (fuel : Nat) :
    ∀ (attempt : Nat) (delay : ℚ) (s : σ),
      (retryFrom body outcomes attempt fuel delay s).success = false →
      (retryFrom body outcomes attempt fuel delay s).state = s := by
  induction fuel with
  | zero => intro attempt delay s _; rfl
  | succ n ih =>
    intro attempt delay s h
    cases houtcome : outcomes attempt with
    | ok =>
      simp only [retryFrom, houtcome] at h ⊢
      exact hbody .ok s (by decide) h
    | connFail =>
      simp only [retryFrom, houtcome] at h ⊢
      exact hbody .connFail s (by decide) h
    | err =>
      simp only [retryFrom, houtcome] at h ⊢
      exact hbody .err s (by decide) h
    | metaErr => exact absurd houtcome (hm attempt)
    | locked =>
      simp only [retryFrom, houtcome] at h ⊢
      by_cases hn : n = 0
      · simp only [if_pos hn]
      · simp only [if_neg hn] at h ⊢
        exact ih (attempt + 1) (delay * 3 / 2) s h

theorem add_repository_attempt_false (U : String) (d : RepoData) (now : String)
    (s : SqliteState) :
    (add_repository_attempt U d now s).1 = false → (add_repository_attempt U d now s).2 = s := by
  unfold add_repository_attempt
  by_cases hU : s.repositories.any (fun r => r.repo_url = U) = true
  · rw [if_pos hU]; intro; rfl
  · rw [if_neg hU]; intro h; simp at h

theorem add_repository_body_false (U : String) (d : RepoData) (now : String) :
    ∀ (oc : AttemptOutcome) (s : SqliteState), ¬ oc = AttemptOutcome.metaErr →
      (add_repository_body U d now oc s).1 = false →
      (add_repository_body U d now oc s).2 = s := by
  intro oc s hoc
  cases oc with
  | ok => exact add_repository_attempt_false U d now s
  | metaErr => exact absurd rfl hoc
  | connFail => intro _; rfl
  | locked => intro _; rfl
  | err => intro _; rfl

theorem add_repository_attempt_metaErr_spec (U : String) (d : RepoData) (now : String)
    (s : SqliteState)
    (hU : s.repositories.any (fun r => r.repo_url = U) = false) :
    (add_repository_attempt_metaErr U d now s).1 = false ∧
    (add_repository_attempt_metaErr U d now s).2.repositories =
      s.repositories ++ [mk_repo_row s.nextId U d now] ∧
    (add_repository_attempt_metaErr U d now s).2.technologies =
      (if d.language ≠ "" then update_technology_tech d.language s.technologies
       else s.technologies) := by
  have hc : ¬ (s.repositories.any (fun r => r.repo_url = U) = true) := by simp [hU]
  unfold add_repository_attempt_metaErr
  rw [if_neg hc]
  refine ⟨rfl, ?_, ?_⟩
  · by_cases hl : d.language ≠ ""
    · simp only [if_pos hl, update_technology_step_repositories]
    · simp only [if_neg hl]
  · by_cases hl : d.language ≠ ""
    · simp only [if_pos hl]
      rfl
    · simp only [if_neg hl]

theorem cloud_update_technology_repos (n : String) (s : DetaState) :
    (cloud_update_technology n s).repos = s.repos := by
  unfold cloud_update_technology
  cases s.techs.find? (fun t => t.name = n) <;> rfl

theorem cloud_tally_foldl_repos (ts : List String) (s : DetaState) :
    (ts.foldl (fun st t => cloud_update_technology t st) s).repos = s.repos := by
  induction ts generalizing s with
  | nil => rfl
  | cons a l ih =>
    rw [List.foldl_cons, ih (cloud_update_technology a s), cloud_update_technology_repos]

theorem cloud_add_repository_spec (U : String) (d : RepoData) (now : String) (s : DetaState)
    (hU : s.repos.any (fun r => r.repo_url = U) = false) :
    (cloud_add_repository .ok U d now s).1 = true ∧
    (cloud_add_repository .ok U d now s).2.repos =
      s.repos ++ [mk_deta_repo s.nextRepoKey U d now] := by
  have hc : ¬ (s.repos.any (fun r => r.repo_url = U) = true) := by simp [hU]
  unfold cloud_add_repository
  rw [if_neg hc]
  refine ⟨rfl, ?_⟩
  simp only [cloud_tally_foldl_repos]
  by_cases hl : d.language ≠ ""
  · rw [if_pos hl, cloud_update_technology_repos]
  · rw [if_neg hl]

theorem cloud_add_repository_metaErr_spec (U : String) (d : RepoData) (now : String)
    (s : DetaState)
    (hU : s.repos.any (fun r => r.repo_url = U) = false) :
    (cloud_add_repository .metaErr U d now s).1 = false ∧
    (cloud_add_repository .metaErr U d now s).2.repos =
      s.repos ++ [mk_deta_repo s.nextRepoKey U d now] ∧
    (cloud_add_repository .metaErr U d now s).2.techs =
      (if d.language ≠ "" then
        (cloud_update_technology d.language
          { s with repos := s.repos ++ [mk_deta_repo s.nextRepoKey U d now],
                   nextRepoKey := s.nextRepoKey + 1 }).techs
       else s.techs) := by
  have hc : ¬ (s.repos.any (fun r => r.repo_url = U) = true) := by simp [hU]
  have hrw : cloud_add_repository .metaErr U d now s =
      (if s.repos.any (fun r => r.repo_url = U) then ((false, s) : Bool × DetaState)
       else (false,
        if d.language ≠ "" then
          cloud_update_technology d.language
            { s with repos := s.repos ++ [mk_deta_repo s.nextRepoKey U d now],
                     nextRepoKey := s.nextRepoKey + 1 }
        else
          { s with repos := s.repos ++ [mk_deta_repo s.nextRepoKey U d now],
                   nextRepoKey := s.nextRepoKey + 1 })) := rfl
  rw [hrw, if_neg hc]
  refine ⟨rfl, ?_, ?_⟩
  · by_cases hl : d.language ≠ ""
    · simp only [if_pos hl, cloud_update_technology_repos]
    · simp only [if_neg hl]
  · by_cases hl : d.language ≠ ""
    · simp only [if_pos hl]
    · simp only [if_neg hl]

/-- Claim C9 counterexample: an add that fails with the post-commit
metadata exception (the repository metadata file holds a JSON value that
is not an object, raising at src/database.py line 142 and
src/cloud_database.py line 109) returns False with the repository record
stored and the language tally incremented, in both backends: the
technologies state of a failed add is not always unchanged. -/
theorem c9_counterexample :
    (add_repository allMetaErr "u" goData "t" emptySql).success = false ∧
    ¬ (add_repository allMetaErr "u" goData "t" emptySql).state.technologies =
      emptySql.technologies ∧
    (add_repository allMetaErr "u" goData "t" emptySql).state.technologies =
      [⟨"Go", 1⟩] ∧
    (add_repository allMetaErr "u" goData "t" emptySql).state.repositories =
      [mk_repo_row 1 "u" goData "t"] ∧
    (cloud_add_repository .metaErr "u" goData "t" emptyDeta).1 = false ∧
    ¬ (cloud_add_repository .metaErr "u" goData "t" emptyDeta).2.techs =
      emptyDeta.techs ∧
    (cloud_add_repository .metaErr "u" goData "t" emptyDeta).2.techs =
      [⟨0, "Go", 1⟩] := by
  decide

/-- Claim C9, amended: the tally increments run only after the repository
record has been stored. Any failed add whose failure is not the
post-commit metadata exception — duplicate url, connection failure,
contention including exhausted retries, or any other error raised before
the record insert commits — leaves the whole state, in particular the
technologies store, unchanged, in the SQLite and Deta backends. An add
that raises while reading custom_metadata.tech_stack after the commit
(custom_metadata not an object) instead returns failure with the record
stored and exactly the language tally increment applied, and no
tech-stack increments. -/
theorem c9_amended_failed_add (outcomes : Nat → AttemptOutcome) (oc : AttemptOutcome)
    (U : String) (d : RepoData) (now : String) (s : SqliteState) (cs : DetaState)
    (hm : ∀ n, ¬ outcomes n = AttemptOutcome.metaErr)
    (hoc : ¬ oc = AttemptOutcome.metaErr) :
    ((add_repository outcomes U d now s).success = false →
      (add_repository outcomes U d now s).state = s ∧
      (add_repository outcomes U d now s).state.technologies = s.technologies) ∧
    ((cloud_add_repository oc U d now cs).1 = false →
      (cloud_add_repository oc U d now cs).2 = cs ∧
      (cloud_add_repository oc U d now cs).2.techs = cs.techs) ∧
    (s.repositories.any (fun r => r.repo_url = U) = false →
      (add_repository allMetaErr U d now s).success = false ∧
      (add_repository allMetaErr U d now s).state.repositories =
        s.repositories ++ [mk_repo_row s.nextId U d now] ∧
      (add_repository allMetaErr U d now s).state.technologies =
        (if d.language ≠ "" then update_technology_tech d.language s.technologies
         else s.technologies)) ∧
    (cs.repos.any (fun r => r.repo_url = U) = false →
      (cloud_add_repository .metaErr U d now cs).1 = false ∧
      (cloud_add_repository .metaErr U d now cs).2.repos =
        cs.repos ++ [mk_deta_repo cs.nextRepoKey U d now] ∧
      (cloud_add_repository .metaErr U d now cs).2.techs =
        (if d.language ≠ "" then
          (cloud_update_technology d.language
            { cs with repos := cs.repos ++ [mk_deta_repo cs.nextRepoKey U d now],
                      nextRepoKey := cs.nextRepoKey + 1 }).techs
         else cs.techs)) := by
  refine ⟨?_, ?_, ?_, ?_⟩
  · intro h
    have hs : (add_repository outcomes U d now s).state = s :=
      retry_false_preserves (add_repository_body U d now)
        (add_repository_body_false U d now) outcomes hm 5 0 1 s h
    exact ⟨hs, by rw [hs]⟩
  · intro h
    cases oc with
    | ok =>
      by_cases hU : cs.repos.any (fun r => r.repo_url = U) = true
      · rw [cloud_add_repository_dup U d now cs hU]
        exact ⟨rfl, rfl⟩
      · exfalso
        revert h
        unfold cloud_add_repository
        rw [if_neg hU]
        intro h
        simp at h
    | metaErr => exact absurd rfl hoc
    | connFail => exact ⟨rfl, rfl⟩
    | locked => exact ⟨rfl, rfl⟩
    | err => exact ⟨rfl, rfl⟩
  · intro hA
    have h1 := add_repository_attempt_metaErr_spec U d now s hA
    have hrw : add_repository allMetaErr U d now s =
        ⟨(add_repository_attempt_metaErr U d now s).1,
         (add_repository_attempt_metaErr U d now s).2, 1, []⟩ := rfl
    rw [hrw]
    exact ⟨h1.1, h1.2.1, h1.2.2⟩
  · intro hA
    exact cloud_add_repository_metaErr_spec U d now cs hA

/-- Witness for C9 at concrete inputs: a pre-commit error leaves the empty
stores unchanged, and the post-commit metadata exception stores the
record. -/
theorem c9_witness :
    (add_repository firstErr "u" goData "t" emptySql).state.technologies =
      emptySql.technologies ∧
    (cloud_add_repository .err "u" goData "t" emptyDeta).2.techs = emptyDeta.techs ∧
    (add_repository allMetaErr "u" goData "t" emptySql).state.repositories =
      emptySql.repositories ++ [mk_repo_row emptySql.nextId "u" goData "t"] := by
  refine ⟨?_, ?_, ?_⟩
  · exact ((c9_amended_failed_add firstErr .err "u" goData "t" emptySql emptyDeta
      (fun n h => AttemptOutcome.noConfusion h) (by decide)).1 (by decide)).2
  · exact ((c9_amended_failed_add firstErr .err "u" goData "t" emptySql emptyDeta
      (fun n h => AttemptOutcome.noConfusion h) (by decide)).2.1 (by decide)).2
  · exact ((c9_amended_failed_add firstErr .err "u" goData "t" emptySql emptyDeta
      (fun n h => AttemptOutcome.noConfusion h) (by decide)).2.2.1 (by decide)).2.1

/-- Claim C1: starting from a state in which url U is absent and repo_url
values are pairwise distinct, calling add(U, D) twice in succession yields
Added (true) the first time and AlreadyExists (false) the second time with
no mutation on the second call, and afterwards exactly one record with
repo_url = U is stored and repo_url values are still pairwise distinct;
this holds in the SQLite backend and in the Deta backend. -/
theorem c1_add_twice_unique (U : String) (d : RepoData) (now now2 : String)
    (s : SqliteState) (cs : DetaState)
    (hU : ∀ r ∈ s.repositories, ¬ r.repo_url = U)
    (hN : (s.repositories.map (fun r => r.repo_url)).Nodup)
    (hUc : ∀ r ∈ cs.repos, ¬ r.repo_url = U)
    (hNc : (cs.repos.map (fun r => r.repo_url)).Nodup) :
    ((add_repository allOk U d now s).success = true ∧
     (add_repository allOk U d now2 (add_repository allOk U d now s).state).success = false ∧
     (add_repository allOk U d now2 (add_repository allOk U d now s).state).state =
       (add_repository allOk U d now s).state ∧
     (add_repository allOk U d now s).state.repositories.countP
       (fun r => r.repo_url = U) = 1 ∧
     ((add_repository allOk U d now s).state.repositories.map
       (fun r => r.repo_url)).Nodup) ∧
    ((cloud_add_repository .ok U d now cs).1 = true ∧
     (cloud_add_repository .ok U d now2 (cloud_add_repository .ok U d now cs).2).1 = false ∧
     (cloud_add_repository .ok U d now2 (cloud_add_repository .ok U d now cs).2).2 =
       (cloud_add_repository .ok U d now cs).2 ∧
     (cloud_add_repository .ok U d now cs).2.repos.countP (fun r => r.repo_url = U) = 1 ∧
     ((cloud_add_repository .ok U d now cs).2.repos.map (fun r => r.repo_url)).Nodup) := by
  constructor
  · have hA : s.repositories.any (fun r => r.repo_url = U) = false := by
      simp only [List.any_eq_false, decide_eq_true_eq]
      exact hU
    have hspec := add_repository_attempt_spec U d now s hA
    have hrw : add_repository allOk U d now s =
        ⟨(add_repository_attempt U d now s).1, (add_repository_attempt U d now s).2, 1, []⟩ :=
      rfl
    have hrepos : (add_repository allOk U d now s).state.repositories =
        s.repositories ++ [mk_repo_row s.nextId U d now] := by
      rw [hrw]
      exact hspec.2.1
    have hany2 : (add_repository allOk U d now s).state.repositories.any
        (fun r => r.repo_url = U) = true := by
      rw [hrepos]
      simp [mk_repo_row]
    have hdup := add_repository_attempt_dup U d now2 _ hany2
    have hsecond : add_repository allOk U d now2 ((add_repository allOk U d now s).state) =
        ⟨false, (add_repository allOk U d now s).state, 1, []⟩ := by
      have h2 : add_repository allOk U d now2 ((add_repository allOk U d now s).state) =
          ⟨(add_repository_attempt U d now2 ((add_repository allOk U d now s).state)).1,
           (add_repository_attempt U d now2 ((add_repository allOk U d now s).state)).2,
           1, []⟩ := rfl
      rw [hdup] at h2
      exact h2
    refine ⟨by rw [hrw]; exact hspec.1, by rw [hsecond], by rw [hsecond], ?_, ?_⟩
    · rw [hrepos, List.countP_append]
      have h0 : s.repositories.countP (fun r => decide (r.repo_url = U)) = 0 := by
        rw [List.countP_eq_zero]
        intro a ha
        simpa using hU a ha
      simp [h0, mk_repo_row, List.countP_cons]
    · rw [hrepos, List.map_append]
      have hUU : U ∉ s.repositories.map (fun r => r.repo_url) := by
        intro hmem
        obtain ⟨r, hr, hrU⟩ := List.mem_map.mp hmem
        exact hU r hr hrU
      rw [List.nodup_append]
      refine ⟨hN, by simp, ?_⟩
      intro a ha hmem
      simp only [mk_repo_row, List.map_cons, List.map_nil, List.mem_singleton] at hmem
      subst hmem
      exact hUU ha
  · have hA : cs.repos.any (fun r => r.repo_url = U) = false := by
      simp only [List.any_eq_false, decide_eq_true_eq]
      exact hUc
    have hspec := cloud_add_repository_spec U d now cs hA
    have hrepos : (cloud_add_repository .ok U d now cs).2.repos =
        cs.repos ++ [mk_deta_repo cs.nextRepoKey U d now] := hspec.2
    have hany2 : (cloud_add_repository .ok U d now cs).2.repos.any
        (fun r => r.repo_url = U) = true := by
      rw [hrepos]
      simp [mk_deta_repo]
    have hdup := cloud_add_repository_dup U d now2 _ hany2
    refine ⟨hspec.1, by rw [hdup], by rw [hdup], ?_, ?_⟩
    · rw [hrepos, List.countP_append]
      have h0 : cs.repos.countP (fun r => decide (r.repo_url = U)) = 0 := by
        rw [List.countP_eq_zero]
        intro a ha
        simpa using hUc a ha
      simp [h0, mk_deta_repo, List.countP_cons]
    · rw [hrepos, List.map_append]
      have hUU : U ∉ cs.repos.map (fun r => r.repo_url) := by
        intro hmem
        obtain ⟨r, hr, hrU⟩ := List.mem_map.mp hmem
        exact hUc r hr hrU
      rw [List.nodup_append]
      refine ⟨hNc, by simp, ?_⟩
      intro a ha hmem
      simp only [mk_deta_repo, List.map_cons, List.map_nil, List.mem_singleton] at hmem
      subst hmem
      exact hUU ha

/-- Witness for C1 at a concrete input: fresh url on the empty SQLite and
Deta states. -/
theorem c1_witness :
    (add_repository allOk "u" goData "t" emptySql).success = true ∧
    (add_repository allOk "u" goData "t2"
      (add_repository allOk "u" goData "t" emptySql).state).success = false ∧
    (cloud_add_repository .ok "u" goData "t" emptyDeta).1 = true :=
  ⟨(c1_add_twice_unique "u" goData "t" "t2" emptySql emptyDeta (by decide) (by decide)
      (by decide) (by decide)).1.1,
   ((c1_add_twice_unique "u" goData "t" "t2" emptySql emptyDeta (by decide) (by decide)
      (by decide) (by decide)).1.2).1,
   (c1_add_twice_unique "u" goData "t" "t2" emptySql emptyDeta (by decide) (by decide)
      (by decide) (by decide)).2.1⟩

theorem nodup_map_inj {α β : Type} {f : α → β} {l : List α} (h : (l.map f).Nodup)
    {a b : α} (ha : a ∈ l) (hb : b ∈ l) (hk : f a = f b) : a = b := by
  induction l with
  | nil => cases ha
  | cons x xs ih =>
    rw [List.map_cons, List.nodup_cons] at h
    rcases List.mem_cons.mp ha with rfl | ha2
    · rcases List.mem_cons.mp hb with rfl | hb2
      · rfl
      · exfalso
        have : f a ∈ xs.map f := by
          rw [hk]
          exact List.mem_map_of_mem f hb2
        exact h.1 this
    · rcases List.mem_cons.mp hb with rfl | hb2
      · exfalso
        have : f b ∈ xs.map f := by
          rw [← hk]
          exact List.mem_map_of_mem f ha2
        exact h.1 this
      · exact ih h.2 ha2 hb2

/-- Claim C7: update(url, data) on an existing record returns success,
overwrites all record fields while preserving repo_url and the backend
identity key, and leaves the technologies tally completely unchanged, in
the SQLite backend and in the Firestore backend. -/
theorem c7_update_overwrites_frame (U : String) (d : RepoData) (now : String)
    (s : SqliteState) (fs : FireState)
    (h1 : s.repositories.any (fun r => r.repo_url = U) = true)
    (h2 : fs.repos.any (fun r => r.repo_url = U) = true)
    (hNod : (fs.repos.map (fun r => r.docId)).Nodup) :
    ((update_repository allOk U d now s).success = true ∧
     (update_repository allOk U d now s).state.technologies = s.technologies ∧
     (update_repository allOk U d now s).state.repositories.map
        (fun r => (r.id, r.repo_url)) =
       s.repositories.map (fun r => (r.id, r.repo_url)) ∧
     (∀ r ∈ (update_repository allOk U d now s).state.repositories, r.repo_url = U →
        r.name = d.name ∧ r.owner = d.owner_login ∧ r.description = d.description ∧
        r.stars = d.stars ∧ r.forks = d.forks ∧ r.language = d.language ∧
        r.last_updated = d.updated_at ∧ r.last_synced = now ∧
        r.metadata = d.custom_metadata)) ∧
    ((fire_update_repository .ok U d now fs).1 = true ∧
     (fire_update_repository .ok U d now fs).2.techs = fs.techs ∧
     (fire_update_repository .ok U d now fs).2.repos.map
        (fun r => (r.docId, r.repo_url, r.idField)) =
       fs.repos.map (fun r => (r.docId, r.repo_url, r.idField)) ∧
     (∃ r ∈ (fire_update_repository .ok U d now fs).2.repos, r.repo_url = U ∧
        r.name = d.name ∧ r.owner = d.owner_login ∧ r.last_synced = now ∧
        r.metadata = d.custom_metadata)) := by
  constructor
  · have hstep : update_repository_attempt U d now s =
        (true, { s with repositories := s.repositories.map (sql_overwrite_row U d now) }) := by
      unfold update_repository_attempt
      rw [if_pos h1]
    have hrw : update_repository allOk U d now s =
        ⟨true, { s with repositories := s.repositories.map (sql_overwrite_row U d now) },
          1, []⟩ := by
      show (⟨(update_repository_attempt U d now s).1, (update_repository_attempt U d now s).2,
        1, []⟩ : RetryResult SqliteState) = _
      rw [hstep]
    refine ⟨by rw [hrw], by rw [hrw], ?_, ?_⟩
    · rw [hrw]
      show (s.repositories.map (sql_overwrite_row U d now)).map (fun r => (r.id, r.repo_url)) = _
      rw [List.map_map]
      apply List.map_congr_left
      intro r _
      by_cases hru : r.repo_url = U
      · simp [sql_overwrite_row, hru]
      · simp [sql_overwrite_row, hru]
    · rw [hrw]
      intro r hr hru
      have hr2 : r ∈ s.repositories.map (sql_overwrite_row U d now) := hr
      obtain ⟨u, hu, rfl⟩ := List.mem_map.mp hr2
      by_cases huU : u.repo_url = U
      · simp [sql_overwrite_row, huU]
      · simp only [sql_overwrite_row, if_neg huU] at hru
        exact absurd hru huU
  · have hex : ∃ x ∈ fs.repos, (fun r => decide (r.repo_url = U)) x = true := by
      simpa using List.any_eq_true.mp h2
    have hsome : (fs.repos.find? (fun r => r.repo_url = U)).isSome :=
      List.find?_isSome.mpr (by simpa using hex)
    obtain ⟨d0, hfind⟩ := Option.isSome_iff_exists.mp hsome
    have hd0mem : d0 ∈ fs.repos := List.mem_of_find?_eq_some hfind
    have hd0url : d0.repo_url = U := by simpa using List.find?_some hfind
    have hrw : fire_update_repository .ok U d now fs =
        (true, { fs with repos := fs.repos.map (fun r =>
          if r.docId = d0.docId then
            ⟨r.docId, U, d.name, d.owner_login, d.description, d.stars, d.forks,
              d.language, d.updated_at, now, d.custom_metadata, d0.idField⟩
          else r) }) := by
      unfold fire_update_repository
      rw [hfind]
    have hrepos : (fire_update_repository .ok U d now fs).2.repos =
        fs.repos.map (fun r =>
          if r.docId = d0.docId then
            ⟨r.docId, U, d.name, d.owner_login, d.description, d.stars, d.forks,
              d.language, d.updated_at, now, d.custom_metadata, d0.idField⟩
          else r) := by
      rw [hrw]
    refine ⟨by rw [hrw], by rw [hrw], ?_, ?_⟩
    · rw [hrepos, List.map_map]
      apply List.map_congr_left
      intro r hr
      by_cases hid : r.docId = d0.docId
      · have : r = d0 := nodup_map_inj hNod hr hd0mem hid
        subst this
        simp [hid, hd0url]
      · simp [hid]
    · rw [hrepos]
      refine ⟨(fun r =>
          if r.docId = d0.docId then
            (⟨r.docId, U, d.name, d.owner_login, d.description, d.stars, d.forks,
              d.language, d.updated_at, now, d.custom_metadata, d0.idField⟩ : FireRepo)
          else r) d0, List.mem_map_of_mem _ hd0mem, ?_⟩
      simp

/-- Witness for C7 at a concrete input: one-record SQLite and Firestore
states whose stored url is updated. -/
theorem c7_witness :
    (update_repository allOk "u" goData "t" sampleSql).success = true ∧
    (update_repository allOk "u" goData "t" sampleSql).state.technologies =
      sampleSql.technologies ∧
    (fire_update_repository .ok "u" goData "t" sampleFire).1 = true ∧
    (fire_update_repository .ok "u" goData "t" sampleFire).2.techs = sampleFire.techs :=
  ⟨(c7_update_overwrites_frame "u" goData "t" sampleSql sampleFire (by decide) (by decide)
      (by decide)).1.1,
   (c7_update_overwrites_frame "u" goData "t" sampleSql sampleFire (by decide) (by decide)
      (by decide)).1.2.1,
   (c7_update_overwrites_frame "u" goData "t" sampleSql sampleFire (by decide) (by decide)
      (by decide)).2.1,
   (c7_update_overwrites_frame "u" goData "t" sampleSql sampleFire (by decide) (by decide)
      (by decide)).2.2.1⟩

theorem update_technology_tech_inv (n : String) (ts : List TechRow)
    (h : ∀ t ∈ ts, 1 ≤ t.count) : ∀ t ∈ update_technology_tech n ts, 1 ≤ t.count := by
  intro t ht
  unfold update_technology_tech at ht
  by_cases he : ts.any (fun x => x.name = n) = true
  · rw [if_pos he] at ht
    obtain ⟨u, hu, rfl⟩ := List.mem_map.mp ht
    have hu2 := h u hu
    by_cases hn : u.name = n
    · simp only [if_pos hn]
      show (1 : Int) ≤ u.count + 1
      omega
    · simp only [if_neg hn]
      exact hu2
  · rw [if_neg he] at ht
    rcases List.mem_append.mp ht with h1 | h1
    · exact h t h1
    · rw [List.mem_singleton] at h1
      subst h1
      show (1 : Int) ≤ 1
      omega

theorem cloud_update_technology_inv (n : String) (s : DetaState)
    (h : cloud_tally_inv s) : cloud_tally_inv (cloud_update_technology n s) := by
  obtain ⟨hc, hnd⟩ := h
  cases hf : s.techs.find? (fun t => t.name = n) with
  | some t0 =>
    have hrw : cloud_update_technology n s = { s with techs := s.techs.map (fun x =>
        if x.key = t0.key then { x with count := x.count + 1 } else x) } := by
      unfold cloud_update_technology
      rw [hf]
    rw [hrw]
    refine ⟨?_, ?_⟩
    · intro t ht
      obtain ⟨u, hu, rfl⟩ := List.mem_map.mp ht
      have hu2 := hc u hu
      have hu3 := hu2.1
      by_cases hk : u.key = t0.key
      · simp only [if_pos hk]
        exact ⟨by show (1 : Int) ≤ u.count + 1; omega, hu2.2⟩
      · simp only [if_neg hk]
        exact hu2
    · have hkeys : (s.techs.map (fun x =>
          if x.key = t0.key then { x with count := x.count + 1 } else x)).map
            (fun t => t.key) = s.techs.map (fun t => t.key) := by
        rw [List.map_map]
        apply List.map_congr_left
        intro x _
        by_cases hk : x.key = t0.key <;> simp [hk]
      show ((s.techs.map (fun x =>
        if x.key = t0.key then { x with count := x.count + 1 } else x)).map
          (fun t => t.key)).Nodup
      rw [hkeys]
      exact hnd
  | none =>
    have hrw : cloud_update_technology n s =
        { s with techs := s.techs ++ [⟨s.nextTechKey, n, 1⟩],
                 nextTechKey := s.nextTechKey + 1 } := by
      unfold cloud_update_technology
      rw [hf]
    rw [hrw]
    refine ⟨?_, ?_⟩
    · intro t ht
      have ht2 : t ∈ s.techs ++ [⟨s.nextTechKey, n, 1⟩] := ht
      rcases List.mem_append.mp ht2 with h1 | h1
      · have hu2 := hc t h1
        have hu3 := hu2.2
        exact ⟨hu2.1, by show t.key < s.nextTechKey + 1; omega⟩
      · rw [List.mem_singleton] at h1
        subst h1
        exact ⟨by show (1 : Int) ≤ 1; omega,
          by show s.nextTechKey < s.nextTechKey + 1; omega⟩
    · show ((s.techs ++ [(⟨s.nextTechKey, n, 1⟩ : DetaTech)]).map (fun t => t.key)).Nodup
      rw [List.map_append, List.nodup_append]
      refine ⟨hnd, by simp, ?_⟩
      intro a ha hmem
      simp only [List.map_cons, List.map_nil, List.mem_singleton] at hmem
      subst hmem
      obtain ⟨u, hu, huk⟩ := List.mem_map.mp ha
      have := (hc u hu).2
      omega

theorem cloud_decrease_technology_count_inv (n : String) (s : DetaState)
    (h : cloud_tally_inv s) : cloud_tally_inv (cloud_decrease_technology_count n s) := by
  obtain ⟨hc, hnd⟩ := h
  cases hf : s.techs.find? (fun t => t.name = n) with
  | none =>
    have hrw : cloud_decrease_technology_count n s = s := by
      unfold cloud_decrease_technology_count
      rw [hf]
    rw [hrw]
    exact ⟨hc, hnd⟩
  | some t0 =>
    have ht0mem : t0 ∈ s.techs := List.mem_of_find?_eq_some hf
    by_cases hle : t0.count ≤ 1
    · have hrw : cloud_decrease_technology_count n s =
          { s with techs := s.techs.filter (fun x => ¬ (x.key = t0.key)) } := by
        unfold cloud_decrease_technology_count
        rw [hf]
        exact if_pos hle
      rw [hrw]
      refine ⟨?_, ?_⟩
      · intro t ht
        have ht2 : t ∈ s.techs.filter (fun x => ¬ (x.key = t0.key)) := ht
        exact hc t (List.mem_of_mem_filter ht2)
      · show ((s.techs.filter (fun x => ¬ (x.key = t0.key))).map (fun t => t.key)).Nodup
        exact List.Nodup.sublist (List.Sublist.map _ (List.filter_sublist _)) hnd
    · have hrw : cloud_decrease_technology_count n s =
          { s with techs := s.techs.map (fun x =>
            if x.key = t0.key then { x with count := x.count - 1 } else x) } := by
        unfold cloud_decrease_technology_count
        rw [hf]
        exact if_neg hle
      rw [hrw]
      refine ⟨?_, ?_⟩
      · intro t ht
        obtain ⟨u, hu, rfl⟩ := List.mem_map.mp ht
        have hu2 := hc u hu
        by_cases hk : u.key = t0.key
        · have heq : u = t0 := nodup_map_inj hnd hu ht0mem hk
          subst heq
          simp only [if_pos hk]
          exact ⟨by show (1 : Int) ≤ u.count - 1; omega, hu2.2⟩
        · simp only [if_neg hk]
          exact hu2
      · have hkeys : (s.techs.map (fun x =>
            if x.key = t0.key then { x with count := x.count - 1 } else x)).map
              (fun t => t.key) = s.techs.map (fun t => t.key) := by
          rw [List.map_map]
          apply List.map_congr_left
          intro x _
          by_cases hk : x.key = t0.key <;> simp [hk]
        show ((s.techs.map (fun x =>
          if x.key = t0.key then { x with count := x.count - 1 } else x)).map
            (fun t => t.key)).Nodup
        rw [hkeys]
        exact hnd

theorem fire_update_technology_inv (n : String) (s : FireState)
    (h : fire_tally_inv s) : fire_tally_inv (fire_update_technology n s) := by
  obtain ⟨hc, hnd⟩ := h
  cases hf : s.techs.find? (fun t => t.name = n) with
  | some t0 =>
    have hrw : fire_update_technology n s = { s with techs := s.techs.map (fun x =>
        if x.docId = t0.docId then { x with count := x.count + 1 } else x) } := by
      unfold fire_update_technology
      rw [hf]
    rw [hrw]
    refine ⟨?_, ?_⟩
    · intro t ht
      obtain ⟨u, hu, rfl⟩ := List.mem_map.mp ht
      have hu2 := hc u hu
      have hu3 := hu2.1
      by_cases hk : u.docId = t0.docId
      · simp only [if_pos hk]
        exact ⟨by show (1 : Int) ≤ u.count + 1; omega, hu2.2⟩
      · simp only [if_neg hk]
        exact hu2
    · have hkeys : (s.techs.map (fun x =>
          if x.docId = t0.docId then { x with count := x.count + 1 } else x)).map
            (fun t => t.docId) = s.techs.map (fun t => t.docId) := by
        rw [List.map_map]
        apply List.map_congr_left
        intro x _
        by_cases hk : x.docId = t0.docId <;> simp [hk]
      show ((s.techs.map (fun x =>
        if x.docId = t0.docId then { x with count := x.count + 1 } else x)).map
          (fun t => t.docId)).Nodup
      rw [hkeys]
      exact hnd
  | none =>
    have hrw : fire_update_technology n s =
        { s with techs := s.techs ++ [⟨s.nextId, n, 1⟩], nextId := s.nextId + 1 } := by
      unfold fire_update_technology
      rw [hf]
    rw [hrw]
    refine ⟨?_, ?_⟩
    · intro t ht
      have ht2 : t ∈ s.techs ++ [⟨s.nextId, n, 1⟩] := ht
      rcases List.mem_append.mp ht2 with h1 | h1
      · have hu2 := hc t h1
        have hu3 := hu2.2
        exact ⟨hu2.1, by show t.docId < s.nextId + 1; omega⟩
      · rw [List.mem_singleton] at h1
        subst h1
        exact ⟨by show (1 : Int) ≤ 1; omega, by show s.nextId < s.nextId + 1; omega⟩
    · show ((s.techs ++ [(⟨s.nextId, n, 1⟩ : FireTech)]).map (fun t => t.docId)).Nodup
      rw [List.map_append, List.nodup_append]
      refine ⟨hnd, by simp, ?_⟩
      intro a ha hmem
      simp only [List.map_cons, List.map_nil, List.mem_singleton] at hmem
      subst hmem
      obtain ⟨u, hu, huk⟩ := List.mem_map.mp ha
      have := (hc u hu).2
      omega

theorem fire_decrease_technology_count_inv (n : String) (s : FireState)
    (h : fire_tally_inv s) : fire_tally_inv (fire_decrease_technology_count n s) := by
  obtain ⟨hc, hnd⟩ := h
  cases hf : s.techs.find? (fun t => t.name = n) with
  | none =>
    have hrw : fire_decrease_technology_count n s = s := by
      unfold fire_decrease_technology_count
      rw [hf]
    rw [hrw]
    exact ⟨hc, hnd⟩
  | some t0 =>
    have ht0mem : t0 ∈ s.techs := List.mem_of_find?_eq_some hf
    by_cases hle : t0.count ≤ 1
    · have hrw : fire_decrease_technology_count n s =
          { s with techs := s.techs.filter (fun x => ¬ (x.docId = t0.docId)) } := by
        unfold fire_decrease_technology_count
        rw [hf]
        exact if_pos hle
      rw [hrw]
      refine ⟨?_, ?_⟩
      · intro t ht
        have ht2 : t ∈ s.techs.filter (fun x => ¬ (x.docId = t0.docId)) := ht
        exact hc t (List.mem_of_mem_filter ht2)
      · show ((s.techs.filter (fun x => ¬ (x.docId = t0.docId))).map
          (fun t => t.docId)).Nodup
        exact List.Nodup.sublist (List.Sublist.map _ (List.filter_sublist _)) hnd
    · have hrw : fire_decrease_technology_count n s =
          { s with techs := s.techs.map (fun x =>
            if x.docId = t0.docId then { x with count := x.count - 1 } else x) } := by
        unfold fire_decrease_technology_count
        rw [hf]
        exact if_neg hle
      rw [hrw]
      refine ⟨?_, ?_⟩
      · intro t ht
        obtain ⟨u, hu, rfl⟩ := List.mem_map.mp ht
        have hu2 := hc u hu
        by_cases hk : u.docId = t0.docId
        · have heq : u = t0 := nodup_map_inj hnd hu ht0mem hk
          subst heq
          simp only [if_pos hk]
          exact ⟨by show (1 : Int) ≤ u.count - 1; omega, hu2.2⟩
        · simp only [if_neg hk]
          exact hu2
      · have hkeys : (s.techs.map (fun x =>
            if x.docId = t0.docId then { x with count := x.count - 1 } else x)).map
              (fun t => t.docId) = s.techs.map (fun t => t.docId) := by
          rw [List.map_map]
          apply List.map_congr_left
          intro x _
          by_cases hk : x.docId = t0.docId <;> simp [hk]
        show ((s.techs.map (fun x =>
          if x.docId = t0.docId then { x with count := x.count - 1 } else x)).map
            (fun t => t.docId)).Nodup
        rw [hkeys]
        exact hnd

theorem sql_tally_ops_inv (ops : List TallyOp) : ∀ ts : List TechRow,
    (∀ t ∈ ts, 1 ≤ t.count) → ∀ t ∈ ops.foldl apply_sql_tally ts, 1 ≤ t.count := by
  induction ops with
  | nil => intro ts h; exact h
  | cons op rest ih =>
    intro ts h
    rw [List.foldl_cons]
    apply ih
    cases op with
    | inc n => exact update_technology_tech_inv n ts h
    | dec n => exact decrease_tech_all_pos n ts

theorem cloud_tally_ops_inv (ops : List TallyOp) : ∀ s : DetaState,
    cloud_tally_inv s → cloud_tally_inv (ops.foldl apply_cloud_tally s) := by
  induction ops with
  | nil => intro s h; exact h
  | cons op rest ih =>
    intro s h
    rw [List.foldl_cons]
    apply ih
    cases op with
    | inc n => exact cloud_update_technology_inv n s h
    | dec n => exact cloud_decrease_technology_count_inv n s h

theorem fire_tally_ops_inv (ops : List TallyOp) : ∀ s : FireState,
    fire_tally_inv s → fire_tally_inv (ops.foldl apply_fire_tally s) := by
  induction ops with
  | nil => intro s h; exact h
  | cons op rest ih =>
    intro s h
    rw [List.foldl_cons]
    apply ih
    cases op with
    | inc n => exact fire_update_technology_inv n s h
    | dec n => exact fire_decrease_technology_count_inv n s h

/-- Claim C2: for any sequence of tally increment/decrement operations,
starting from a well-formed store, every stored entry has count at least 1
(equivalently, an entry whose count would drop to zero or below is deleted
rather than retained), and this holds identically in all three backends. -/
theorem c2_tally_count_invariant (ops : List TallyOp) (ts : List TechRow)
    (cs : DetaState) (fs : FireState)
    (hS : ∀ t ∈ ts, 1 ≤ t.count) (hC : cloud_tally_inv cs) (hF : fire_tally_inv fs) :
    (∀ t ∈ ops.foldl apply_sql_tally ts, 1 ≤ t.count) ∧
    (∀ t ∈ (ops.foldl apply_cloud_tally cs).techs, 1 ≤ t.count) ∧
    (∀ t ∈ (ops.foldl apply_fire_tally fs).techs, 1 ≤ t.count) :=
  ⟨sql_tally_ops_inv ops ts hS,
   fun t ht => ((cloud_tally_ops_inv ops cs hC).1 t ht).1,
   fun t ht => ((fire_tally_ops_inv ops fs hF).1 t ht).1⟩

/-- Witness for C2 at a concrete input: the sequence inc Go, dec Go,
dec Go on the three empty stores. -/
theorem c2_witness :
    (∀ t ∈ [TallyOp.inc "Go", TallyOp.dec "Go", TallyOp.dec "Go"].foldl apply_sql_tally
      ([] : List TechRow), 1 ≤ t.count) ∧
    (∀ t ∈ ([TallyOp.inc "Go", TallyOp.dec "Go", TallyOp.dec "Go"].foldl apply_cloud_tally
      emptyDeta).techs, 1 ≤ t.count) ∧
    (∀ t ∈ ([TallyOp.inc "Go", TallyOp.dec "Go", TallyOp.dec "Go"].foldl apply_fire_tally
      emptyFire).techs, 1 ≤ t.count) :=
  c2_tally_count_invariant [TallyOp.inc "Go", TallyOp.dec "Go", TallyOp.dec "Go"] []
    emptyDeta emptyFire (fun t ht => absurd ht (List.not_mem_nil t))
    ⟨fun t ht => absurd ht (List.not_mem_nil t), List.nodup_nil⟩
    ⟨fun t ht => absurd ht (List.not_mem_nil t), List.nodup_nil⟩

theorem insertStatDesc_cons (x y : String × Int) (ys : List (String × Int)) :
    insertStatDesc x (y :: ys) =
      if y.2 ≤ x.2 then x :: y :: ys else y :: insertStatDesc x ys := rfl

theorem insertTechDesc_cons (x y : TechRow) (ys : List TechRow) :
    insertTechDesc x (y :: ys) =
      if y.count ≤ x.count then x :: y :: ys else y :: insertTechDesc x ys := rfl

theorem mem_insertStatDesc (x y : String × Int) (l : List (String × Int)) :
    y ∈ insertStatDesc x l ↔ y = x ∨ y ∈ l := by
  induction l with
  | nil => simp [insertStatDesc]
  | cons a as ih =>
    rw [insertStatDesc_cons]
    by_cases hc : a.2 ≤ x.2
    · rw [if_pos hc]
      simp [List.mem_cons]
    · rw [if_neg hc]
      simp only [List.mem_cons, ih]
      tauto

theorem insertStatDesc_pairwise (x : String × Int) (l : List (String × Int))
    (h : l.Pairwise (fun a b => b.2 ≤ a.2)) :
    (insertStatDesc x l).Pairwise (fun a b => b.2 ≤ a.2) := by
  induction l with
  | nil => simp [insertStatDesc]
  | cons a as ih =>
    rw [List.pairwise_cons] at h
    rw [insertStatDesc_cons]
    by_cases hc : a.2 ≤ x.2
    · rw [if_pos hc, List.pairwise_cons]
      constructor
      · intro b hb
        rcases List.mem_cons.mp hb with rfl | hb2
        · exact hc
        · exact le_trans (h.1 b hb2) hc
      · rw [List.pairwise_cons]
        exact h
    · rw [if_neg hc, List.pairwise_cons]
      constructor
      · intro b hb
        rcases (mem_insertStatDesc x b as).mp hb with rfl | hb2
        · omega
        · exact h.1 b hb2
      · exact ih h.2

theorem sortStatsDesc_pairwise (l : List (String × Int)) :
    (sortStatsDesc l).Pairwise (fun a b => b.2 ≤ a.2) := by
  induction l with
  | nil => exact List.Pairwise.nil
  | cons a as ih => exact insertStatDesc_pairwise a (sortStatsDesc as) ih

theorem filter_insertStatDesc (x : String × Int) (l : List (String × Int)) (c : Int) :
    (insertStatDesc x l).filter (fun p => p.2 = c) =
      if x.2 = c then x :: l.filter (fun p => p.2 = c)
      else l.filter (fun p => p.2 = c) := by
  induction l with
  | nil =>
    by_cases hx : x.2 = c <;> simp [insertStatDesc, hx]
  | cons a as ih =>
    rw [insertStatDesc_cons]
    by_cases hc : a.2 ≤ x.2
    · rw [if_pos hc]
      by_cases hx : x.2 = c <;> by_cases ha : a.2 = c <;>
        simp [List.filter_cons, hx, ha]
    · rw [if_neg hc]
      by_cases ha : a.2 = c <;> by_cases hx : x.2 = c
      · exfalso
        omega
      · simp [List.filter_cons, ha, hx, ih]
      · simp [List.filter_cons, ha, hx, ih]
      · simp [List.filter_cons, ha, hx, ih]

theorem filter_sortStatsDesc (l : List (String × Int)) (c : Int) :
    (sortStatsDesc l).filter (fun p => p.2 = c) = l.filter (fun p => p.2 = c) := by
  induction l with
  | nil => rfl
  | cons a as ih =>
    show (insertStatDesc a (sortStatsDesc as)).filter (fun p => p.2 = c) = _
    rw [filter_insertStatDesc]
    by_cases ha : a.2 = c
    · rw [if_pos ha, ih]
      simp [List.filter_cons, ha]
    · rw [if_neg ha, ih]
      simp [List.filter_cons, ha]

theorem insertStatDesc_perm (x : String × Int) (l : List (String × Int)) :
    List.Perm (insertStatDesc x l) (x :: l) := by
  induction l with
  | nil => exact List.Perm.refl _
  | cons a as ih =>
    rw [insertStatDesc_cons]
    by_cases hc : a.2 ≤ x.2
    · rw [if_pos hc]
    · rw [if_neg hc]
      exact List.Perm.trans (ih.cons a) (List.Perm.swap x a as)

theorem sortStatsDesc_perm (l : List (String × Int)) :
    List.Perm (sortStatsDesc l) l := by
  induction l with
  | nil => exact List.Perm.refl _
  | cons a as ih =>
    show List.Perm (insertStatDesc a (sortStatsDesc as)) (a :: as)
    exact List.Perm.trans (insertStatDesc_perm a (sortStatsDesc as)) (ih.cons a)

theorem insertTechDesc_map (x : TechRow) (l : List TechRow) :
    (insertTechDesc x l).map (fun t => (t.name, t.count)) =
      insertStatDesc (x.name, x.count) (l.map (fun t => (t.name, t.count))) := by
  induction l with
  | nil => rfl
  | cons a as ih =>
    rw [List.map_cons, insertTechDesc_cons, insertStatDesc_cons]
    by_cases hc : a.count ≤ x.count
    · rw [if_pos hc,
        if_pos (show ((a.name, a.count) : String × Int).2 ≤
          ((x.name, x.count) : String × Int).2 from hc)]
      rfl
    · rw [if_neg hc,
        if_neg (show ¬ (((a.name, a.count) : String × Int).2 ≤
          ((x.name, x.count) : String × Int).2) from hc)]
      rw [List.map_cons, ih]

theorem sortTechDesc_map (l : List TechRow) :
    (sortTechDesc l).map (fun t => (t.name, t.count)) =
      sortStatsDesc (l.map (fun t => (t.name, t.count))) := by
  induction l with
  | nil => rfl
  | cons a as ih =>
    show (insertTechDesc a (sortTechDesc as)).map (fun t => (t.name, t.count)) =
      insertStatDesc (a.name, a.count) (sortStatsDesc (as.map (fun t => (t.name, t.count))))
    rw [insertTechDesc_map, ih]

theorem get_technology_stats_eq (s : SqliteState) :
    get_technology_stats s =
      sortStatsDesc (s.technologies.map (fun t => (t.name, t.count))) := by
  unfold get_technology_stats
  exact sortTechDesc_map s.technologies

/-- Claim C8: in every backend the snapshot is ordered by count descending
with ties kept in the insertion (enumeration) order of the entries — the
entries at each fixed count value appear exactly as in the store, and the
snapshot is a permutation of the store contents; moreover the three
backends produce identical snapshots from identical stored (name, count)
sequences. -/
theorem c8_snapshot_ordering (s : SqliteState) (cs : DetaState) (fs : FireState)
    (hsc : s.technologies.map (fun t => (t.name, t.count)) =
      cs.techs.map (fun t => (t.name, t.count)))
    (hsf : s.technologies.map (fun t => (t.name, t.count)) =
      fs.techs.map (fun t => (t.name, t.count))) :
    (get_technology_stats s).Pairwise (fun a b => b.2 ≤ a.2) ∧
    (∀ c : Int, (get_technology_stats s).filter (fun p => p.2 = c) =
      (s.technologies.map (fun t => (t.name, t.count))).filter (fun p => p.2 = c)) ∧
    List.Perm (get_technology_stats s) (s.technologies.map (fun t => (t.name, t.count))) ∧
    cloud_get_technology_stats cs = get_technology_stats s ∧
    fire_get_technology_stats fs = get_technology_stats s := by
  refine ⟨?_, ?_, ?_, ?_, ?_⟩
  · rw [get_technology_stats_eq]
    exact sortStatsDesc_pairwise _
  · intro c
    rw [get_technology_stats_eq]
    exact filter_sortStatsDesc _ c
  · rw [get_technology_stats_eq]
    exact sortStatsDesc_perm _
  · unfold cloud_get_technology_stats
    rw [get_technology_stats_eq, hsc]
  · unfold fire_get_technology_stats
    rw [get_technology_stats_eq, hsf]

/-- Witness for C8 at a concrete input: three stores holding Go: 2,
Python: 2, Docker: 1 in that insertion order. -/
theorem c8_witness :
    cloud_get_technology_stats tieDeta = get_technology_stats tieSql ∧
    fire_get_technology_stats tieFire = get_technology_stats tieSql ∧
    get_technology_stats tieSql = [("Go", 2), ("Python", 2), ("Docker", 1)] :=
  ⟨(c8_snapshot_ordering tieSql tieDeta tieFire (by decide) (by decide)).2.2.2.1,
   (c8_snapshot_ordering tieSql tieDeta tieFire (by decide) (by decide)).2.2.2.2,
   by decide⟩

end RepoSpotlight
